import Mathlib

/-!
Verification of the Nova-satellite wakeword/recording front-end.

This file gives a shallow embedding of the two source files of the repository:

* `src/main.py` — the chunk-by-chunk capture loop: wakeword detection while idle,
  and the recording state controller (awaiting-speech / in-speech) with its
  silence counters and session-end actions;
* `src/settings/config.py` — `load_settings`, which merges a settings file with
  `DEFAULT_SETTINGS` and removes unknown keys.

Machine integers are modelled as `ℤ`/`ℕ`, the float parameters and scores as `ℚ`,
and the floating-point RMS energy as the real `sqrt` of an exact rational mean of
squares.  The loop's observable side effects (wakeword banner, session-end report,
`owwModel.reset()`) are modelled as a list of events emitted by each iteration.
-/

set_option maxHeartbeats 1000000

namespace Nova

/-- An audio chunk: the int16 samples read from the microphone during one loop
iteration (`np.frombuffer(mic_stream.read(CHUNK), dtype=np.int16)`, main.py:135). -/
abbrev Chunk := List ℤ

/-- The mean of the squared samples of a chunk, as an exact rational.  Mirrors
`np.mean(audio_data.astype(np.float64)**2)` from main.py:140 (the float64 sums of
int16 squares at the chunk sizes in use are exact, so ℚ is faithful). -/
def rmsSq (audio_data : Chunk) : ℚ :=
  (audio_data.map (fun x : ℤ => (x : ℚ) ^ 2)).sum / (audio_data.length : ℚ)

/-- The root-mean-square energy of a chunk:
`rms = np.sqrt(np.mean(audio_data.astype(np.float64)**2))` (main.py:140),
idealized over the reals. -/
noncomputable def rms (audio_data : Chunk) : ℝ :=
  Real.sqrt ((rmsSq audio_data : ℚ) : ℝ)

/-- Decides the loop's comparison `rms < args.silence_threshold` without leaving ℚ:
for an integer threshold `t`, `sqrt m < t` iff `0 < t` and `m < t²`.  The lemma
`rmsLt_true_iff` below proves this Boolean agrees with the real comparison. -/
def rmsLt (audio_data : Chunk) (threshold : ℤ) : Bool :=
  decide (0 < threshold ∧ rmsSq audio_data < (threshold : ℚ) ^ 2)

/-- Python `int()` applied to a rational value: truncation toward zero. -/
def pyInt (q : ℚ) : ℤ := Int.tdiv q.num (q.den : ℤ)

/-- The configuration consumed by the capture loop (resolved `args` in main.py):
`chunk_size`, `silence_threshold` (an int of RMS units), and the two duration
parameters in seconds. -/
structure Config where
  chunk_size : ℕ
  silence_threshold : ℤ
  silence_duration_seconds : ℚ
  no_speech_timeout_seconds : ℚ

/-- `RATE = 16000` (main.py:84). -/
def RATE : ℕ := 16000

/-- `SILENCE_CHUNKS_FOR_SPEECH_END = int(args.silence_duration_seconds * RATE / CHUNK)`
(main.py:130). -/
def SILENCE_CHUNKS_FOR_SPEECH_END (cfg : Config) : ℤ :=
  pyInt (cfg.silence_duration_seconds * (RATE : ℚ) / (cfg.chunk_size : ℚ))

/-- `NO_SPEECH_TIMEOUT_CHUNKS = int(args.no_speech_timeout_seconds * RATE / CHUNK)`
(main.py:131). -/
def NO_SPEECH_TIMEOUT_CHUNKS (cfg : Config) : ℤ :=
  pyInt (cfg.no_speech_timeout_seconds * (RATE : ℚ) / (cfg.chunk_size : ℚ))

/-- The mutable loop variables of the capture loop (main.py:124–127). -/
structure LoopState where
  is_recording : Bool
  recorded_frames : List Chunk
  consecutive_silent_chunks : ℕ
  speech_has_started : Bool
deriving DecidableEq

/-- The initial state (main.py:124–127), restored at every session end
(main.py:168–171 and 193–196). -/
def idleState : LoopState := ⟨false, [], 0, false⟩

/-- The state installed on wakeword detection (main.py:214–217): recording on,
buffer cleared, speech flag cleared, silence counter reset. -/
def armedState : LoopState := ⟨true, [], 0, false⟩

/-- The openwakeword `prediction_buffer`, as seen by one iteration of the
detection scan: for each model key, its rolling score history. -/
abbrev PredBuffer := List (String × List ℚ)

/-- The per-model test of main.py:207, `if scores and scores[-1] > 0.5`: the
history is nonempty and its most recent score is above 0.5. -/
def lastAbove (scores : List ℚ) : Bool :=
  match scores.getLast? with
  | some s => decide ((0.5 : ℚ) < s)
  | none => false

/-- The detection scan of main.py:205–219: iterate the prediction buffer in order
and stop (`break`) at the first model passing the `lastAbove` test. -/
def findDetection : PredBuffer → Option String
  | [] => none
  | (mdl, scores) :: rest =>
    if lastAbove scores then some mdl else findDetection rest

/-- Python single-character `str.split`: splits a character list at every
occurrence of `sep`, keeping empty pieces, so the result is always nonempty. -/
def splitChar (sep : Char) : List Char → List (List Char)
  | [] => [[]]
  | c :: cs =>
    let r := splitChar sep cs
    if c = sep then [] :: r else (c :: r.headD []) :: r.tail

/-- `mdl.split("\\")[-1].split("/")[-1].split(".")[0]` (main.py:208–210).  All
three separators are single characters, for which Python `str.split` coincides
with `splitChar`. -/
def extractModelName (mdl : String) : String :=
  let model_name_parts := (splitChar '/' ((splitChar '\\' mdl.toList).getLastD [])).getLastD []
  ((splitChar '.' model_name_parts).headD []).asString

/-- Observable actions of one loop iteration: the wakeword banner with the
extracted model name (main.py:211), the speech-start message (main.py:145), the
session-end report — carrying the frames handed to the exporter and the printed
duration `len(recorded_frames) * CHUNK / RATE` (main.py:152–166 and 179–191) —
and the `owwModel.reset()` call (main.py:172 and 197). -/
inductive Event where
  | wakewordDetected : String → Event
  | speechStarted : Event
  | sessionEnded : List Chunk → ℚ → Event
  | scorerReset : Event
deriving DecidableEq

/-- One iteration of the `while True` loop (main.py:134–222).  `audio_data` is the
chunk read at line 135 and `buf` the scorer's prediction buffer after
`owwModel.predict(audio_data)` (the buffer is consulted only when not recording,
exactly as in the source, where `predict` is only called on that branch). -/
def step (cfg : Config) (st : LoopState) (audio_data : Chunk) (buf : PredBuffer) :
    LoopState × List Event :=
  if st.is_recording then
    -- main.py:137–200
    let recorded_frames := st.recorded_frames ++ [audio_data]
    if st.speech_has_started = false then
      -- main.py:142–173 (awaiting speech)
      if rmsLt audio_data cfg.silence_threshold = false then
        -- `rms >= args.silence_threshold` (main.py:143)
        ({ st with recorded_frames := recorded_frames,
                   speech_has_started := true,
                   consecutive_silent_chunks := 0 },
         [Event.speechStarted])
      else
        let consecutive_silent_chunks := st.consecutive_silent_chunks + 1
        if (consecutive_silent_chunks : ℤ) ≥ NO_SPEECH_TIMEOUT_CHUNKS cfg then
          -- main.py:149–173: abandon the session
          (idleState,
           (if recorded_frames ≠ [] then
              [Event.sessionEnded recorded_frames
                 ((recorded_frames.length : ℚ) * (cfg.chunk_size : ℚ) / (RATE : ℚ))]
            else []) ++ [Event.scorerReset])
        else
          ({ st with recorded_frames := recorded_frames,
                     consecutive_silent_chunks := consecutive_silent_chunks }, [])
    else
      -- main.py:174–200 (speech has started)
      if rmsLt audio_data cfg.silence_threshold = true then
        let consecutive_silent_chunks := st.consecutive_silent_chunks + 1
        if (consecutive_silent_chunks : ℤ) ≥ SILENCE_CHUNKS_FOR_SPEECH_END cfg then
          -- main.py:177–198: finalize the session
          (idleState,
           [Event.sessionEnded recorded_frames
              ((recorded_frames.length : ℚ) * (cfg.chunk_size : ℚ) / (RATE : ℚ)),
            Event.scorerReset])
        else
          ({ st with recorded_frames := recorded_frames,
                     consecutive_silent_chunks := consecutive_silent_chunks }, [])
      else
        -- main.py:199–200: continued speech
        ({ st with recorded_frames := recorded_frames,
                   consecutive_silent_chunks := 0 }, [])
  else
    -- main.py:202–222 (detection poller)
    match findDetection buf with
    | some mdl => (armedState, [Event.wakewordDetected (extractModelName mdl)])
    | none => (st, [])

/-- Run the loop over a list of inputs, each being the chunk read at line 135
paired with the prediction buffer the scorer exposes on that iteration. -/
def runState (cfg : Config) (st : LoopState) : List (Chunk × PredBuffer) → LoopState
  | [] => st
  | p :: ps => runState cfg (step cfg st p.1 p.2).1 ps

/-- The first `k` inputs of an infinite input stream. -/
def inputsUpTo (f : ℕ → Chunk × PredBuffer) (k : ℕ) : List (Chunk × PredBuffer) :=
  (List.range k).map f

/-- `if args.chunk_size is None: ... args.chunk_size = 1280` (main.py:76–79):
resolution of the `chunk_size` configuration value, returning the value used and
whether the fallback warning was printed. -/
def resolveChunkSize : Option ℤ → ℤ × Bool
  | none => (1280, true)
  | some v => (v, false)

/-- The chunk-count threshold computation of main.py:129–131 applied to a possibly
missing duration value.  A missing value makes `int(None * RATE / CHUNK)` raise an
unhandled `TypeError` (fatal), modelled as `none`. -/
def chunkCountThreshold (seconds : Option ℚ) (C : ℕ) : Option ℤ :=
  seconds.map (fun T => pyInt (T * (RATE : ℚ) / (C : ℚ)))

/-! ### The settings file model (src/settings/config.py) -/

/-- A JSON value, as far as `settings/config.py` distinguishes them: strings,
numbers, booleans, objects (Python dicts, insertion-ordered), and null. -/
inductive JVal where
  | jstr : String → JVal
  | jnum : ℚ → JVal
  | jbool : Bool → JVal
  | jobj : List (String × JVal) → JVal
  | jnull : JVal

/-- A JSON object: an insertion-ordered association list, like a Python dict. -/
abbrev JObj := List (String × JVal)

/-- Python `d[k]` / `d.get(k)`: the value of the first (only) entry with key `k`. -/
def lookupJ (obj : JObj) (k : String) : Option JVal :=
  (obj.find? (fun p => p.1 == k)).map (fun p => p.2)

/-- Python `k in d`. -/
def hasKey (obj : JObj) (k : String) : Bool :=
  obj.any (fun p => p.1 == k)

/-- Python `d[k] = v`: overwrite in place if the key exists, else append at the
end, as Python dicts do. -/
def setKey (obj : JObj) (k : String) (v : JVal) : JObj :=
  if hasKey obj k then obj.map (fun p => if p.1 == k then (p.1, v) else p)
  else obj ++ [(k, v)]

/-- `DEFAULT_SETTINGS["wakeword_settings"]` (config.py:10–19). -/
def wakewordDefaults : JObj :=
  [("model_path1", JVal.jstr ""),
   ("model_path2", JVal.jstr ""),
   ("model_path3", JVal.jstr ""),
   ("chunk_size", JVal.jnum 1280),
   ("inference_framework", JVal.jstr "onnx"),
   ("silence_threshold", JVal.jnum 500),
   ("silence_duration_seconds", JVal.jnum 1),
   ("no_speech_timeout_seconds", JVal.jnum 4)]

/-- `DEFAULT_SETTINGS` (config.py:9–20). -/
def DEFAULT_SETTINGS : JObj := [("wakeword_settings", JVal.jobj wakewordDefaults)]

/-- The inner merge loop of config.py:61–63: for each default key of a category,
take the loaded file's value when the file has the key (`current[key] =
loaded[key]`), starting from the category of `final_settings` (a deep copy of the
defaults at that point). -/
def mergeLoop (lvals : JObj) : List (String × JVal) → JObj → JObj
  | [], cur => cur
  | p :: ps, cur =>
    match lookupJ lvals p.1 with
    | some v => mergeLoop lvals ps (setKey cur p.1 v)
    | none => mergeLoop lvals ps cur

/-- Merge one settings category with the loaded file's category (config.py:60–63). -/
def mergeCategoryVals (dvals lvals : JObj) : JObj :=
  mergeLoop lvals dvals dvals

/-- The category loop of config.py:55–65 over `DEFAULT_SETTINGS`, starting from
`final_settings = copy.deepcopy(DEFAULT_SETTINGS)` (config.py:52). -/
def mergeSettingsLoop (loaded : JObj) : List (String × JVal) → JObj → JObj
  | [], fin => fin
  | p :: ps, fin =>
    mergeSettingsLoop loaded ps
      (match p.2, lookupJ loaded p.1 with
       | _, none => fin
       | JVal.jobj dvals, some (JVal.jobj lvals) =>
           setKey fin p.1 (JVal.jobj (mergeCategoryVals dvals lvals))
       | JVal.jobj _, some _ => fin
       | _, some lv => setKey fin p.1 lv)

/-- `final_settings` after the merge of config.py:52–65.  (The block at
config.py:67–76 builds `cleaned_settings_for_comparison`, a deep copy that is
never read again, so it has no bearing on the result.) -/
def mergedSettings (loaded : JObj) : JObj :=
  mergeSettingsLoop loaded DEFAULT_SETTINGS DEFAULT_SETTINGS

/-- The add-missing-keys loop of config.py:84–87: append each default key absent
from the category, in default order, at the end of the dict. -/
def addMissingLoop : List (String × JVal) → JObj → JObj
  | [], cur => cur
  | p :: ps, cur =>
    if hasKey cur p.1 then addMissingLoop ps cur
    else addMissingLoop ps (cur ++ [p])

/-- config.py:84–91 for one category: add missing default keys, then delete keys
unknown to the defaults. -/
def ensureCategory (dvals cur : JObj) : JObj :=
  (addMissingLoop dvals cur).filter (fun p => hasKey dvals p.1)

/-- The final normalization loop of config.py:79–93 over `DEFAULT_SETTINGS`. -/
def ensureSettingsLoop : List (String × JVal) → JObj → JObj
  | [], fin => fin
  | p :: ps, fin =>
    ensureSettingsLoop ps
      (match p.2 with
       | JVal.jobj dvals =>
         match lookupJ fin p.1 with
         | some (JVal.jobj cur) => setKey fin p.1 (JVal.jobj (ensureCategory dvals cur))
         | some _ => fin
         | none => fin ++ [(p.1, JVal.jobj dvals)]
       | _ => fin)

/-- `final_settings` after config.py:79–93. -/
def ensuredSettings (fin : JObj) : JObj :=
  ensureSettingsLoop DEFAULT_SETTINGS fin

/-- The state of the settings file as `load_settings` finds it: absent,
unparsable (JSONDecodeError or IOError), or parsed to a JSON object. -/
inductive FileState where
  | absent
  | unparsable
  | parsed : JObj → FileState

/-- `load_settings` (config.py:33–99), as a function of the settings-file state to
the returned dictionary.  An absent or unparsable file returns a deep copy of the
defaults (config.py:38–49); otherwise the loaded object is merged with the
defaults and normalized.  (The `save_settings` calls are I/O side effects with no
bearing on the returned value.) -/
def load_settings : FileState → JObj
  | FileState.absent => DEFAULT_SETTINGS
  | FileState.unparsable => DEFAULT_SETTINGS
  | FileState.parsed loaded => ensuredSettings (mergedSettings loaded)

/-- The value the settings file itself supplies for wakeword key `k`: present only
when the file parsed, has a `"wakeword_settings"` object, and that object has `k`.
(This definition states the claim's case split; it is not part of the source.) -/
def fileWakewordValue : FileState → String → Option JVal
  | FileState.parsed loaded, k =>
    match lookupJ loaded "wakeword_settings" with
    | some (JVal.jobj lvals) => lookupJ lvals k
    | _ => none
  | _, _ => none

/-! ### Basic facts about the RMS energy and the threshold comparison -/

lemma rmsSq_nonneg (c : Chunk) : 0 ≤ rmsSq c := by
  unfold rmsSq
  apply div_nonneg
  · apply List.sum_nonneg
    intro x hx
    simp only [List.mem_map] at hx
    obtain ⟨a, -, rfl⟩ := hx
    positivity
  · positivity

/-- The Boolean `rmsLt` decides exactly the loop's comparison `rms < threshold`. -/
lemma rmsLt_true_iff (c : Chunk) (t : ℤ) :
    rmsLt c t = true ↔ rms c < (t : ℝ) := by
  unfold rmsLt rms
  rw [decide_eq_true_eq]
  constructor
  · rintro ⟨ht, hlt⟩
    have ht' : (0 : ℝ) < (t : ℝ) := by exact_mod_cast ht
    rw [Real.sqrt_lt' ht']
    have : ((rmsSq c : ℚ) : ℝ) < (((t : ℚ) : ℝ)) ^ 2 := by exact_mod_cast hlt
    push_cast at this ⊢
    exact this
  · intro h
    have hnn := Real.sqrt_nonneg ((rmsSq c : ℚ) : ℝ)
    have ht' : (0 : ℝ) < (t : ℝ) := lt_of_le_of_lt hnn h
    have ht : 0 < t := by exact_mod_cast ht'
    refine ⟨ht, ?_⟩
    rw [Real.sqrt_lt' ht'] at h
    exact_mod_cast h

lemma rmsLt_false_iff (c : Chunk) (t : ℤ) :
    rmsLt c t = false ↔ (t : ℝ) ≤ rms c := by
  rw [← not_lt, ← rmsLt_true_iff]
  cases rmsLt c t <;> simp

/-- On a constant chunk every sample is `A`, so the mean square is `A²`. -/
lemma rmsSq_const (A : ℤ) (c : Chunk) (hne : c ≠ []) (hA : ∀ x ∈ c, x = A) :
    rmsSq c = (A : ℚ) ^ 2 := by
  have hmap : c.map (fun x : ℤ => (x : ℚ) ^ 2) = List.replicate c.length ((A : ℚ) ^ 2) := by
    apply List.eq_replicate_iff.mpr
    constructor
    · simp
    · intro b hb
      simp only [List.mem_map] at hb
      obtain ⟨a, ha, rfl⟩ := hb
      rw [hA a ha]
  have hlen : (c.length : ℚ) ≠ 0 := by
    have : c.length ≠ 0 := by simpa [List.length_eq_zero] using hne
    exact_mod_cast this
  unfold rmsSq
  rw [hmap, List.sum_replicate, nsmul_eq_mul, mul_div_cancel_left₀ _ hlen]

/-- The RMS of a constant chunk of amplitude `A` is `|A|`. -/
lemma rms_const (A : ℤ) (c : Chunk) (hne : c ≠ []) (hA : ∀ x ∈ c, x = A) :
    rms c = |(A : ℝ)| := by
  unfold rms
  rw [rmsSq_const A c hne hA]
  have : (((A : ℚ) ^ 2 : ℚ) : ℝ) = ((A : ℝ)) ^ 2 := by push_cast; ring
  rw [this, Real.sqrt_sq_eq_abs]

/-- Python `int()` agrees with the floor on the nonnegative rationals. -/
lemma pyInt_eq_floor (q : ℚ) (h : 0 ≤ q) : pyInt q = ⌊q⌋ := by
  unfold pyInt
  rw [Int.tdiv_eq_ediv (Rat.num_nonneg.mpr h) (by positivity)]
  conv_rhs => rw [← Rat.num_div_den q]
  rw [Rat.floor_intCast_div_natCast]

/-! ### One-step characterizations of the loop -/

lemma step_detect (cfg : Config) (st : LoopState) (c : Chunk) (b : PredBuffer) (mdl : String)
    (h : st.is_recording = false) (hd : findDetection b = some mdl) :
    step cfg st c b = (armedState, [Event.wakewordDetected (extractModelName mdl)]) := by
  simp [step, h, hd]

lemma step_no_detect (cfg : Config) (st : LoopState) (c : Chunk) (b : PredBuffer)
    (h : st.is_recording = false) (hd : findDetection b = none) :
    step cfg st c b = (st, []) := by
  simp [step, h, hd]

lemma step_speech_start (cfg : Config) (st : LoopState) (c : Chunk) (b : PredBuffer)
    (h1 : st.is_recording = true) (h2 : st.speech_has_started = false)
    (h3 : rmsLt c cfg.silence_threshold = false) :
    step cfg st c b =
      ({ st with recorded_frames := st.recorded_frames ++ [c],
                 speech_has_started := true,
                 consecutive_silent_chunks := 0 },
       [Event.speechStarted]) := by
  simp [step, h1, h2, h3]

lemma step_awaiting_silent (cfg : Config) (st : LoopState) (c : Chunk) (b : PredBuffer)
    (h1 : st.is_recording = true) (h2 : st.speech_has_started = false)
    (h3 : rmsLt c cfg.silence_threshold = true)
    (h4 : ¬ ((st.consecutive_silent_chunks + 1 : ℕ) : ℤ) ≥ NO_SPEECH_TIMEOUT_CHUNKS cfg) :
    step cfg st c b =
      ({ st with recorded_frames := st.recorded_frames ++ [c],
                 consecutive_silent_chunks := st.consecutive_silent_chunks + 1 }, []) := by
  simp [step, h1, h2, h3, h4]
  all_goals omega

lemma step_awaiting_timeout (cfg : Config) (st : LoopState) (c : Chunk) (b : PredBuffer)
    (h1 : st.is_recording = true) (h2 : st.speech_has_started = false)
    (h3 : rmsLt c cfg.silence_threshold = true)
    (h4 : ((st.consecutive_silent_chunks + 1 : ℕ) : ℤ) ≥ NO_SPEECH_TIMEOUT_CHUNKS cfg) :
    step cfg st c b =
      (idleState,
       [Event.sessionEnded (st.recorded_frames ++ [c])
          (((st.recorded_frames ++ [c]).length : ℚ) * (cfg.chunk_size : ℚ) / (RATE : ℚ)),
        Event.scorerReset]) := by
  simp [step, h1, h2, h3, h4]
  all_goals omega

lemma step_inspeech_silent (cfg : Config) (st : LoopState) (c : Chunk) (b : PredBuffer)
    (h1 : st.is_recording = true) (h2 : st.speech_has_started = true)
    (h3 : rmsLt c cfg.silence_threshold = true)
    (h4 : ¬ ((st.consecutive_silent_chunks + 1 : ℕ) : ℤ) ≥ SILENCE_CHUNKS_FOR_SPEECH_END cfg) :
    step cfg st c b =
      ({ st with recorded_frames := st.recorded_frames ++ [c],
                 consecutive_silent_chunks := st.consecutive_silent_chunks + 1 }, []) := by
  simp [step, h1, h2, h3, h4]
  all_goals omega

lemma step_inspeech_final (cfg : Config) (st : LoopState) (c : Chunk) (b : PredBuffer)
    (h1 : st.is_recording = true) (h2 : st.speech_has_started = true)
    (h3 : rmsLt c cfg.silence_threshold = true)
    (h4 : ((st.consecutive_silent_chunks + 1 : ℕ) : ℤ) ≥ SILENCE_CHUNKS_FOR_SPEECH_END cfg) :
    step cfg st c b =
      (idleState,
       [Event.sessionEnded (st.recorded_frames ++ [c])
          (((st.recorded_frames ++ [c]).length : ℚ) * (cfg.chunk_size : ℚ) / (RATE : ℚ)),
        Event.scorerReset]) := by
  simp [step, h1, h2, h3, h4]
  all_goals omega

lemma step_inspeech_loud (cfg : Config) (st : LoopState) (c : Chunk) (b : PredBuffer)
    (h1 : st.is_recording = true) (h2 : st.speech_has_started = true)
    (h3 : rmsLt c cfg.silence_threshold = false) :
    step cfg st c b =
      ({ st with recorded_frames := st.recorded_frames ++ [c],
                 consecutive_silent_chunks := 0 }, []) := by
  simp [step, h1, h2, h3]

/-- A recording step either stays recording with the chunk appended, or performs a
session end.  This is the session-end characterization: the only way out of the
recording state is through one of the two end paths, and both emit the report and
the scorer reset. -/
lemma step_session_end (cfg : Config) (st : LoopState) (c : Chunk) (b : PredBuffer)
    (h1 : st.is_recording = true) (h2 : (step cfg st c b).1.is_recording = false) :
    step cfg st c b =
      (idleState,
       [Event.sessionEnded (st.recorded_frames ++ [c])
          (((st.recorded_frames ++ [c]).length : ℚ) * (cfg.chunk_size : ℚ) / (RATE : ℚ)),
        Event.scorerReset]) := by
  cases hsp : st.speech_has_started with
  | false =>
    cases h3 : rmsLt c cfg.silence_threshold with
    | false => rw [step_speech_start cfg st c b h1 hsp h3] at h2; simp [h1] at h2
    | true =>
      by_cases h4 : ((st.consecutive_silent_chunks + 1 : ℕ) : ℤ) ≥ NO_SPEECH_TIMEOUT_CHUNKS cfg
      · exact step_awaiting_timeout cfg st c b h1 hsp h3 h4
      · rw [step_awaiting_silent cfg st c b h1 hsp h3 h4] at h2; simp [h1] at h2
  | true =>
    cases h3 : rmsLt c cfg.silence_threshold with
    | false => rw [step_inspeech_loud cfg st c b h1 hsp h3] at h2; simp [h1] at h2
    | true =>
      by_cases h4 : ((st.consecutive_silent_chunks + 1 : ℕ) : ℤ) ≥ SILENCE_CHUNKS_FOR_SPEECH_END cfg
      · exact step_inspeech_final cfg st c b h1 hsp h3 h4
      · rw [step_inspeech_silent cfg st c b h1 hsp h3 h4] at h2; simp [h1] at h2

/-- A step that starts and stays recording appends exactly the current chunk to
the recording buffer. -/
lemma step_stay_recording (cfg : Config) (st : LoopState) (c : Chunk) (b : PredBuffer)
    (h1 : st.is_recording = true) (h2 : (step cfg st c b).1.is_recording = true) :
    (step cfg st c b).1.recorded_frames = st.recorded_frames ++ [c] := by
  cases hsp : st.speech_has_started with
  | false =>
    cases h3 : rmsLt c cfg.silence_threshold with
    | false => rw [step_speech_start cfg st c b h1 hsp h3]
    | true =>
      by_cases h4 : ((st.consecutive_silent_chunks + 1 : ℕ) : ℤ) ≥ NO_SPEECH_TIMEOUT_CHUNKS cfg
      · rw [step_awaiting_timeout cfg st c b h1 hsp h3 h4] at h2; simp [idleState] at h2
      · rw [step_awaiting_silent cfg st c b h1 hsp h3 h4]
  | true =>
    cases h3 : rmsLt c cfg.silence_threshold with
    | false => rw [step_inspeech_loud cfg st c b h1 hsp h3]
    | true =>
      by_cases h4 : ((st.consecutive_silent_chunks + 1 : ℕ) : ℤ) ≥ SILENCE_CHUNKS_FOR_SPEECH_END cfg
      · rw [step_inspeech_final cfg st c b h1 hsp h3 h4] at h2; simp [idleState] at h2
      · rw [step_inspeech_silent cfg st c b h1 hsp h3 h4]

/-! ### Facts about runs -/

lemma runState_nil (cfg : Config) (st : LoopState) : runState cfg st [] = st := rfl

lemma runState_cons (cfg : Config) (st : LoopState) (p : Chunk × PredBuffer)
    (ps : List (Chunk × PredBuffer)) :
    runState cfg st (p :: ps) = runState cfg (step cfg st p.1 p.2).1 ps := rfl

lemma runState_append (cfg : Config) (st : LoopState) (l l' : List (Chunk × PredBuffer)) :
    runState cfg st (l ++ l') = runState cfg (runState cfg st l) l' := by
  induction l generalizing st with
  | nil => rfl
  | cons p ps ih => simp [runState_cons, ih]

lemma inputsUpTo_zero (f : ℕ → Chunk × PredBuffer) : inputsUpTo f 0 = [] := rfl

lemma inputsUpTo_succ (f : ℕ → Chunk × PredBuffer) (k : ℕ) :
    inputsUpTo f (k + 1) = inputsUpTo f k ++ [f k] := by
  simp [inputsUpTo, List.range_succ]

/-! ### Facts about the detection scan -/

/-- `lastAbove` holds exactly when the history is nonempty with most recent score
above 0.5. -/
lemma lastAbove_iff (scores : List ℚ) :
    lastAbove scores = true ↔ ∃ s, scores.getLast? = some s ∧ (0.5 : ℚ) < s := by
  unfold lastAbove
  cases h : scores.getLast? <;> simp

/-- If the scan reports a model, that model is in the buffer with a nonempty
history whose most recent score is above 0.5. -/
lemma findDetection_mem (buf : PredBuffer) (mdl : String)
    (h : findDetection buf = some mdl) :
    ∃ scores s, (mdl, scores) ∈ buf ∧ scores.getLast? = some s ∧ (0.5 : ℚ) < s := by
  induction buf with
  | nil => simp [findDetection] at h
  | cons p rest ih =>
    obtain ⟨m, scores⟩ := p
    rw [findDetection] at h
    by_cases hb : lastAbove scores = true
    · rw [if_pos hb] at h
      obtain rfl := Option.some_injective _ h
      obtain ⟨s, hlast, hgt⟩ := (lastAbove_iff scores).mp hb
      exact ⟨scores, s, List.mem_cons_self _ _, hlast, hgt⟩
    · rw [if_neg hb] at h
      obtain ⟨sc, s, hmem, hlast, hgt⟩ := ih h
      exact ⟨sc, s, List.mem_cons_of_mem _ hmem, hlast, hgt⟩

/-- If the scan reports nothing, no model passed the test. -/
lemma findDetection_none_sound (buf : PredBuffer)
    (h : findDetection buf = none) : ∀ p ∈ buf, lastAbove p.2 = false := by
  induction buf with
  | nil => simp
  | cons p rest ih =>
    obtain ⟨m, scores⟩ := p
    rw [findDetection] at h
    by_cases hb : lastAbove scores = true
    · rw [if_pos hb] at h; exact absurd h (by simp)
    · rw [if_neg hb] at h
      intro q hq
      rcases List.mem_cons.mp hq with rfl | hq'
      · simpa using hb
      · exact ih h q hq'

/-- If every model's most recent score is at most 0.5, the scan reports nothing. -/
lemma findDetection_eq_none (buf : PredBuffer)
    (h : ∀ p ∈ buf, ∀ s, p.2.getLast? = some s → s ≤ (0.5 : ℚ)) :
    findDetection buf = none := by
  cases hfd : findDetection buf with
  | none => rfl
  | some mdl =>
    obtain ⟨scores, s, hmem, hlast, hgt⟩ := findDetection_mem buf mdl hfd
    exact absurd (h (mdl, scores) hmem s hlast) (by simpa using hgt)

/-- If some model's most recent score is above 0.5, the scan reports a model (the
first such one in buffer order). -/
lemma findDetection_isSome (buf : PredBuffer)
    (h : ∃ p ∈ buf, ∃ s, p.2.getLast? = some s ∧ (0.5 : ℚ) < s) :
    ∃ mdl, findDetection buf = some mdl := by
  cases hfd : findDetection buf with
  | some mdl => exact ⟨mdl, rfl⟩
  | none =>
    obtain ⟨p, hmem, s, hlast, hgt⟩ := h
    have hfalse := findDetection_none_sound buf hfd p hmem
    have htrue : lastAbove p.2 = true := (lastAbove_iff p.2).mpr ⟨s, hlast, hgt⟩
    rw [htrue] at hfalse
    exact absurd hfalse (by simp)

/-! ### Silent-run inductions -/

/-- Running `k` silent chunks from the recording-armed state, while `k` is below
the no-speech timeout, keeps the loop awaiting speech with the silence counter at
`k` and all `k` chunks buffered. -/
lemma awaiting_silent_run (cfg : Config) (f : ℕ → Chunk × PredBuffer)
    (hsil : ∀ i, rmsLt (f i).1 cfg.silence_threshold = true) :
    ∀ k : ℕ, (k : ℤ) < NO_SPEECH_TIMEOUT_CHUNKS cfg →
      runState cfg armedState (inputsUpTo f k) =
        ⟨true, (inputsUpTo f k).map Prod.fst, k, false⟩ := by
  intro k
  induction k with
  | zero => intro _; simp [inputsUpTo, runState, armedState]
  | succ k ih =>
    intro hk
    have hk' : (k : ℤ) < NO_SPEECH_TIMEOUT_CHUNKS cfg := by push_cast at hk ⊢; omega
    rw [inputsUpTo_succ, runState_append, ih hk', runState_cons, runState_nil]
    rw [step_awaiting_silent cfg _ _ _ rfl rfl (hsil k) (by push_cast at hk ⊢; omega)]
    simp [inputsUpTo_succ]

/-- Running `k` silent chunks from a just-entered in-speech state (counter 0,
frames `fr0`), while `k` is below the speech-end threshold, keeps recording with
the silence counter at `k` and all `k` chunks appended. -/
lemma inspeech_silent_run (cfg : Config) (fr0 : List Chunk) (f : ℕ → Chunk × PredBuffer)
    (hsil : ∀ i, rmsLt (f i).1 cfg.silence_threshold = true) :
    ∀ k : ℕ, (k : ℤ) < SILENCE_CHUNKS_FOR_SPEECH_END cfg →
      runState cfg ⟨true, fr0, 0, true⟩ (inputsUpTo f k) =
        ⟨true, fr0 ++ (inputsUpTo f k).map Prod.fst, k, true⟩ := by
  intro k
  induction k with
  | zero => intro _; simp [inputsUpTo, runState]
  | succ k ih =>
    intro hk
    have hk' : (k : ℤ) < SILENCE_CHUNKS_FOR_SPEECH_END cfg := by push_cast at hk ⊢; omega
    rw [inputsUpTo_succ, runState_append, ih hk', runState_cons, runState_nil]
    rw [step_inspeech_silent cfg _ _ _ rfl rfl (hsil k) (by push_cast at hk ⊢; omega)]
    simp [inputsUpTo_succ]

/-- While every intermediate state stays recording, a run appends exactly the
processed chunks to the recording buffer. -/
lemma recording_run_frames (cfg : Config) :
    ∀ (pairs : List (Chunk × PredBuffer)) (st : LoopState),
      st.is_recording = true →
      (∀ k, k ≤ pairs.length → (runState cfg st (pairs.take k)).is_recording = true) →
      (runState cfg st pairs).recorded_frames = st.recorded_frames ++ pairs.map Prod.fst := by
  intro pairs
  induction pairs with
  | nil => intro st h _; simp [runState_nil]
  | cons p ps ih =>
    intro st h hall
    have h1 : (step cfg st p.1 p.2).1.is_recording = true := by
      have := hall 1 (by simp)
      simpa [runState_cons, runState_nil] using this
    have hframes := step_stay_recording cfg st p.1 p.2 h h1
    have hall' : ∀ k, k ≤ ps.length →
        (runState cfg (step cfg st p.1 p.2).1 (ps.take k)).is_recording = true := by
      intro k hk
      have := hall (k + 1) (by simpa using Nat.succ_le_succ hk)
      simpa [List.take_succ_cons, runState_cons] using this
    rw [runState_cons, ih _ h1 hall', hframes]
    simp

/-! ### Claim C1 -/

/-- Claim C1 (amended): after wakeword detection, with every subsequent chunk
silent (`rms < silence_threshold`), the session aborts and the controller returns
to `IDLE` after exactly `floor(no_speech_timeout_seconds * 16000 / chunk_size)`
chunks — provided that floor is at least 1 (when it is 0 the session instead
aborts after one chunk, see the counterexample). -/
theorem no_speech_timeout_aborts_after_floor_chunks
    (cfg : Config)
    (hN : 1 ≤ ⌊cfg.no_speech_timeout_seconds * (RATE : ℚ) / (cfg.chunk_size : ℚ)⌋)
    (f : ℕ → Chunk × PredBuffer)
    (hsil : ∀ i, rms (f i).1 < (cfg.silence_threshold : ℝ)) :
    (∀ k < (⌊cfg.no_speech_timeout_seconds * (RATE : ℚ) / (cfg.chunk_size : ℚ)⌋).toNat,
        (runState cfg armedState (inputsUpTo f k)).is_recording = true) ∧
    runState cfg armedState
        (inputsUpTo f
          (⌊cfg.no_speech_timeout_seconds * (RATE : ℚ) / (cfg.chunk_size : ℚ)⌋).toNat) =
      idleState := by
  set q := cfg.no_speech_timeout_seconds * (RATE : ℚ) / (cfg.chunk_size : ℚ) with hq
  have hq0 : 0 ≤ q := by
    have h1 : (1 : ℚ) ≤ (⌊q⌋ : ℚ) := by exact_mod_cast hN
    linarith [Int.floor_le q]
  have hNT : NO_SPEECH_TIMEOUT_CHUNKS cfg = ⌊q⌋ := pyInt_eq_floor q hq0
  have hsil' : ∀ i, rmsLt (f i).1 cfg.silence_threshold = true :=
    fun i => (rmsLt_true_iff _ _).mpr (hsil i)
  have hNcast : (((⌊q⌋).toNat : ℕ) : ℤ) = ⌊q⌋ := Int.toNat_of_nonneg (by omega)
  constructor
  · intro k hk
    have hlt : (k : ℤ) < NO_SPEECH_TIMEOUT_CHUNKS cfg := by
      rw [hNT, ← hNcast]; exact_mod_cast hk
    rw [awaiting_silent_run cfg f hsil' k hlt]
  · have hN1 : 1 ≤ (⌊q⌋).toNat := by omega
    obtain ⟨M, hM⟩ : ∃ M, (⌊q⌋).toNat = M + 1 := ⟨(⌊q⌋).toNat - 1, by omega⟩
    rw [hM]
    have hMlt : (M : ℤ) < NO_SPEECH_TIMEOUT_CHUNKS cfg := by
      rw [hNT, ← hNcast]; push_cast; omega
    rw [inputsUpTo_succ, runState_append, awaiting_silent_run cfg f hsil' M hMlt,
      runState_cons, runState_nil,
      step_awaiting_timeout cfg _ _ _ rfl rfl (hsil' M)
        (by rw [hNT, ← hNcast]; push_cast; omega)]

/-- Claim C1 counterexample: with `chunk_size = 1280` and
`no_speech_timeout_seconds = 1/100`, the floor is 0, yet after 0 chunks the
controller is still recording — the abort actually happens after 1 silent chunk,
not 0. -/
theorem no_speech_timeout_floor_zero_counterexample :
    ⌊(1/100 : ℚ) * (RATE : ℚ) / ((1280 : ℕ) : ℚ)⌋ = 0 ∧
    rms [0] < ((500 : ℤ) : ℝ) ∧
    (runState (⟨1280, 500, 1, 1/100⟩ : Config) armedState
        (inputsUpTo (fun _ => ([0], [])) 0)).is_recording = true ∧
    runState (⟨1280, 500, 1, 1/100⟩ : Config) armedState
        (inputsUpTo (fun _ => ([0], [])) 1) = idleState := by
  have hfloor : ⌊(1/100 : ℚ) * (RATE : ℚ) / ((1280 : ℕ) : ℚ)⌋ = 0 := by
    have hval : (1/100 : ℚ) * (RATE : ℚ) / ((1280 : ℕ) : ℚ) = 1/8 := by
      norm_num [RATE]
    rw [hval, Int.floor_eq_iff] <;> norm_num
  have hrms : rms [0] = |((0 : ℤ) : ℝ)| := rms_const 0 [0] (by simp) (by decide)
  have hsil : rms [0] < ((500 : ℤ) : ℝ) := by rw [hrms]; norm_num
  have hNT : NO_SPEECH_TIMEOUT_CHUNKS (⟨1280, 500, 1, 1/100⟩ : Config) = 0 := by
    unfold NO_SPEECH_TIMEOUT_CHUNKS
    rw [pyInt_eq_floor _ (by norm_num [RATE])]
    exact hfloor
  refine ⟨hfloor, hsil, rfl, ?_⟩
  have h1 : rmsLt [0] 500 = true := (rmsLt_true_iff _ _).mpr hsil
  show runState _ armedState [([0], [])] = idleState
  rw [runState_cons, runState_nil,
    step_awaiting_timeout _ _ _ _ rfl rfl h1 (by rw [hNT]; omega)]

/-- Witness for C1 at `chunk_size = 1280`, `no_speech_timeout_seconds = 1/10`
(floor = 1): the all-silent session is back to `IDLE` after exactly 1 chunk. -/
theorem no_speech_timeout_aborts_witness :
    1 ≤ ⌊(⟨1280, 500, 1, 1/10⟩ : Config).no_speech_timeout_seconds * (RATE : ℚ) /
          (((⟨1280, 500, 1, 1/10⟩ : Config).chunk_size : ℕ) : ℚ)⌋ ∧
    runState (⟨1280, 500, 1, 1/10⟩ : Config) armedState
        (inputsUpTo (fun _ => ([0], []))
          (⌊(⟨1280, 500, 1, 1/10⟩ : Config).no_speech_timeout_seconds * (RATE : ℚ) /
              (((⟨1280, 500, 1, 1/10⟩ : Config).chunk_size : ℕ) : ℚ)⌋).toNat) =
      idleState := by
  have hval : (⟨1280, 500, 1, 1/10⟩ : Config).no_speech_timeout_seconds * (RATE : ℚ) /
      (((⟨1280, 500, 1, 1/10⟩ : Config).chunk_size : ℕ) : ℚ) = 5/4 := by
    show (1/10 : ℚ) * (RATE : ℚ) / ((1280 : ℕ) : ℚ) = 5/4
    norm_num [RATE]
  have hN : 1 ≤ ⌊(⟨1280, 500, 1, 1/10⟩ : Config).no_speech_timeout_seconds * (RATE : ℚ) /
      (((⟨1280, 500, 1, 1/10⟩ : Config).chunk_size : ℕ) : ℚ)⌋ := by
    rw [hval]
    rw [show ⌊(5/4 : ℚ)⌋ = 1 from by rw [Int.floor_eq_iff] <;> norm_num]
  have hrms : rms [0] = |((0 : ℤ) : ℝ)| := rms_const 0 [0] (by simp) (by decide)
  have hsil : ∀ i : ℕ, rms ((fun _ => (([0] : Chunk), ([] : PredBuffer))) i).1 <
      (((⟨1280, 500, 1, 1/10⟩ : Config).silence_threshold : ℤ) : ℝ) := by
    intro i
    show rms [0] < ((500 : ℤ) : ℝ)
    rw [hrms]; norm_num
  exact ⟨hN, (no_speech_timeout_aborts_after_floor_chunks _ hN _ hsil).2⟩

/-! ### Claim C2 -/

/-- Claim C2 (amended): once in the in-speech state with the silence counter at 0,
`N = floor(silence_duration_seconds * 16000 / chunk_size)` consecutive silent
chunks finalize the session and return the controller to `IDLE` — provided
`N ≥ 1` (when `N = 0` one silent chunk finalizes, see the counterexample); fewer
than `N` silent chunks followed by one chunk with `rms ≥ silence_threshold` reset
the counter to 0 and keep recording; and in the in-speech state every chunk with
`rms ≥ silence_threshold` (in particular `rms` strictly above the threshold)
resets the counter to 0. -/
theorem silence_finalizes_after_floor_chunks
    (cfg : Config) (fr0 : List Chunk)
    (hN : 1 ≤ ⌊cfg.silence_duration_seconds * (RATE : ℚ) / (cfg.chunk_size : ℚ)⌋)
    (f : ℕ → Chunk × PredBuffer)
    (hsil : ∀ i, rms (f i).1 < (cfg.silence_threshold : ℝ)) :
    (∀ k < (⌊cfg.silence_duration_seconds * (RATE : ℚ) / (cfg.chunk_size : ℚ)⌋).toNat,
        (runState cfg ⟨true, fr0, 0, true⟩ (inputsUpTo f k)).is_recording = true) ∧
    runState cfg ⟨true, fr0, 0, true⟩
        (inputsUpTo f
          (⌊cfg.silence_duration_seconds * (RATE : ℚ) / (cfg.chunk_size : ℚ)⌋).toNat) =
      idleState ∧
    (∀ k < (⌊cfg.silence_duration_seconds * (RATE : ℚ) / (cfg.chunk_size : ℚ)⌋).toNat,
      ∀ (cLoud : Chunk) (bLoud : PredBuffer),
        (cfg.silence_threshold : ℝ) ≤ rms cLoud →
        runState cfg ⟨true, fr0, 0, true⟩ (inputsUpTo f k ++ [(cLoud, bLoud)]) =
          ⟨true, fr0 ++ (inputsUpTo f k).map Prod.fst ++ [cLoud], 0, true⟩) ∧
    (∀ (fr : List Chunk) (m : ℕ) (c : Chunk) (b : PredBuffer),
        (cfg.silence_threshold : ℝ) ≤ rms c →
        step cfg ⟨true, fr, m, true⟩ c b = (⟨true, fr ++ [c], 0, true⟩, [])) := by
  set q := cfg.silence_duration_seconds * (RATE : ℚ) / (cfg.chunk_size : ℚ) with hq
  have hq0 : 0 ≤ q := by
    have h1 : (1 : ℚ) ≤ (⌊q⌋ : ℚ) := by exact_mod_cast hN
    linarith [Int.floor_le q]
  have hNS : SILENCE_CHUNKS_FOR_SPEECH_END cfg = ⌊q⌋ := pyInt_eq_floor q hq0
  have hsil' : ∀ i, rmsLt (f i).1 cfg.silence_threshold = true :=
    fun i => (rmsLt_true_iff _ _).mpr (hsil i)
  have hNcast : (((⌊q⌋).toNat : ℕ) : ℤ) = ⌊q⌋ := Int.toNat_of_nonneg (by omega)
  have hloudStep : ∀ (fr : List Chunk) (m : ℕ) (c : Chunk) (b : PredBuffer),
      (cfg.silence_threshold : ℝ) ≤ rms c →
      step cfg ⟨true, fr, m, true⟩ c b = (⟨true, fr ++ [c], 0, true⟩, []) := by
    intro fr m c b hloud
    have h3 : rmsLt c cfg.silence_threshold = false := (rmsLt_false_iff _ _).mpr hloud
    rw [step_inspeech_loud cfg _ c b rfl rfl h3]
  refine ⟨?_, ?_, ?_, hloudStep⟩
  · intro k hk
    have hlt : (k : ℤ) < SILENCE_CHUNKS_FOR_SPEECH_END cfg := by
      rw [hNS, ← hNcast]; exact_mod_cast hk
    rw [inspeech_silent_run cfg fr0 f hsil' k hlt]
  · have hN1 : 1 ≤ (⌊q⌋).toNat := by omega
    obtain ⟨M, hM⟩ : ∃ M, (⌊q⌋).toNat = M + 1 := ⟨(⌊q⌋).toNat - 1, by omega⟩
    rw [hM]
    have hMlt : (M : ℤ) < SILENCE_CHUNKS_FOR_SPEECH_END cfg := by
      rw [hNS, ← hNcast]; push_cast; omega
    rw [inputsUpTo_succ, runState_append, inspeech_silent_run cfg fr0 f hsil' M hMlt,
      runState_cons, runState_nil,
      step_inspeech_final cfg _ _ _ rfl rfl (hsil' M)
        (by rw [hNS, ← hNcast]; push_cast; omega)]
  · intro k hk cLoud bLoud hloud
    have hlt : (k : ℤ) < SILENCE_CHUNKS_FOR_SPEECH_END cfg := by
      rw [hNS, ← hNcast]; exact_mod_cast hk
    rw [runState_append, inspeech_silent_run cfg fr0 f hsil' k hlt,
      runState_cons, runState_nil, hloudStep _ _ _ _ hloud]

/-- Claim C2 counterexample: with `chunk_size = 1280` and
`silence_duration_seconds = 1/100`, `N = 0`, yet after 0 silent chunks the
in-speech controller is still recording — finalization actually happens after 1
silent chunk, not 0. -/
theorem silence_duration_floor_zero_counterexample :
    ⌊(1/100 : ℚ) * (RATE : ℚ) / ((1280 : ℕ) : ℚ)⌋ = 0 ∧
    (runState (⟨1280, 500, 1/100, 4⟩ : Config) ⟨true, [], 0, true⟩
        (inputsUpTo (fun _ => ([0], [])) 0)).is_recording = true ∧
    runState (⟨1280, 500, 1/100, 4⟩ : Config) ⟨true, [], 0, true⟩
        (inputsUpTo (fun _ => ([0], [])) 1) = idleState := by
  have hfloor : ⌊(1/100 : ℚ) * (RATE : ℚ) / ((1280 : ℕ) : ℚ)⌋ = 0 := by
    have hval : (1/100 : ℚ) * (RATE : ℚ) / ((1280 : ℕ) : ℚ) = 1/8 := by
      norm_num [RATE]
    rw [hval, Int.floor_eq_iff] <;> norm_num
  have hrms : rms [0] = |((0 : ℤ) : ℝ)| := rms_const 0 [0] (by simp) (by decide)
  have hsil : rms [0] < ((500 : ℤ) : ℝ) := by rw [hrms]; norm_num
  have hNS : SILENCE_CHUNKS_FOR_SPEECH_END (⟨1280, 500, 1/100, 4⟩ : Config) = 0 := by
    unfold SILENCE_CHUNKS_FOR_SPEECH_END
    rw [pyInt_eq_floor _ (by norm_num [RATE])]
    exact hfloor
  refine ⟨hfloor, rfl, ?_⟩
  have h1 : rmsLt [0] 500 = true := (rmsLt_true_iff _ _).mpr hsil
  show runState _ ⟨true, [], 0, true⟩ [([0], [])] = idleState
  rw [runState_cons, runState_nil,
    step_inspeech_final _ _ _ _ rfl rfl h1 (by rw [hNS]; omega)]

/-- Witness for C2 at `chunk_size = 1280`, `silence_duration_seconds = 1/10`
(`N = 1`): one silent chunk finalizes, and a loud chunk resets the counter. -/
theorem silence_finalizes_witness :
    1 ≤ ⌊(⟨1280, 500, 1/10, 4⟩ : Config).silence_duration_seconds * (RATE : ℚ) /
          (((⟨1280, 500, 1/10, 4⟩ : Config).chunk_size : ℕ) : ℚ)⌋ ∧
    runState (⟨1280, 500, 1/10, 4⟩ : Config) ⟨true, [], 0, true⟩
        (inputsUpTo (fun _ => ([0], []))
          (⌊(⟨1280, 500, 1/10, 4⟩ : Config).silence_duration_seconds * (RATE : ℚ) /
              (((⟨1280, 500, 1/10, 4⟩ : Config).chunk_size : ℕ) : ℚ)⌋).toNat) =
      idleState ∧
    step (⟨1280, 500, 1/10, 4⟩ : Config) ⟨true, [[7]], 3, true⟩ [800] [] =
      (⟨true, [[7]] ++ [[800]], 0, true⟩, []) := by
  have hval : (⟨1280, 500, 1/10, 4⟩ : Config).silence_duration_seconds * (RATE : ℚ) /
      (((⟨1280, 500, 1/10, 4⟩ : Config).chunk_size : ℕ) : ℚ) = 5/4 := by
    show (1/10 : ℚ) * (RATE : ℚ) / ((1280 : ℕ) : ℚ) = 5/4
    norm_num [RATE]
  have hN : 1 ≤ ⌊(⟨1280, 500, 1/10, 4⟩ : Config).silence_duration_seconds * (RATE : ℚ) /
      (((⟨1280, 500, 1/10, 4⟩ : Config).chunk_size : ℕ) : ℚ)⌋ := by
    rw [hval]
    rw [show ⌊(5/4 : ℚ)⌋ = 1 from by rw [Int.floor_eq_iff] <;> norm_num]
  have hrms : rms [0] = |((0 : ℤ) : ℝ)| := rms_const 0 [0] (by simp) (by decide)
  have hsil : ∀ i : ℕ, rms ((fun _ => (([0] : Chunk), ([] : PredBuffer))) i).1 <
      (((⟨1280, 500, 1/10, 4⟩ : Config).silence_threshold : ℤ) : ℝ) := by
    intro i
    show rms [0] < ((500 : ℤ) : ℝ)
    rw [hrms]; norm_num
  have hmain := silence_finalizes_after_floor_chunks _ [] hN _ hsil
  have hloud : (((⟨1280, 500, 1/10, 4⟩ : Config).silence_threshold : ℤ) : ℝ) ≤ rms [800] := by
    show ((500 : ℤ) : ℝ) ≤ rms [800]
    rw [rms_const 800 [800] (by simp) (by decide)]
    norm_num
  exact ⟨hN, hmain.2.1, hmain.2.2.2 [[7]] 3 [800] [] hloud⟩

/-! ### Claim C3 -/

/-- Claim C3 (amended): when the controller is not recording and some model's most
recent score exceeds 0.5, the loop signals wakeword detection with the matched
model's extracted name and transitions to the recording-armed state (buffer
cleared, silence counter reset, speech flag cleared) — but it does **not** invoke
the scorer's reset capability at detection time (score histories are only reset
at session end). -/
theorem detection_transitions_without_reset
    (cfg : Config) (st : LoopState) (c : Chunk) (buf : PredBuffer)
    (hst : st.is_recording = false)
    (hdet : ∃ p ∈ buf, ∃ s, p.2.getLast? = some s ∧ (0.5 : ℚ) < s) :
    ∃ mdl scores s, (mdl, scores) ∈ buf ∧ scores.getLast? = some s ∧ (0.5 : ℚ) < s ∧
      step cfg st c buf = (armedState, [Event.wakewordDetected (extractModelName mdl)]) ∧
      Event.scorerReset ∉ (step cfg st c buf).2 := by
  obtain ⟨mdl, hfd⟩ := findDetection_isSome buf hdet
  obtain ⟨scores, s, hmem, hlast, hgt⟩ := findDetection_mem buf mdl hfd
  have hstep := step_detect cfg st c buf mdl hst hfd
  refine ⟨mdl, scores, s, hmem, hlast, hgt, hstep, ?_⟩
  rw [hstep]
  simp

/-- Claim C3 counterexample: at a concrete detection the emitted events are
exactly the wakeword banner — the scorer reset claimed by the specification does
not happen at detection time. -/
theorem detection_no_reset_counterexample :
    (∃ p ∈ ([("hey_jarvis.onnx", [3/4])] : PredBuffer),
        ∃ s, p.2.getLast? = some s ∧ (0.5 : ℚ) < s) ∧
    step (⟨1280, 500, 1, 4⟩ : Config) idleState [0] [("hey_jarvis.onnx", [3/4])] =
      (armedState, [Event.wakewordDetected "hey_jarvis"]) ∧
    Event.scorerReset ∉
      (step (⟨1280, 500, 1, 4⟩ : Config) idleState [0] [("hey_jarvis.onnx", [3/4])]).2 := by
  have hla : lastAbove [3/4] = true := by
    have h34 : (0.5 : ℚ) < 3/4 := by norm_num
    simp [lastAbove, h34]
  have hfd : findDetection ([("hey_jarvis.onnx", [3/4])] : PredBuffer) = some "hey_jarvis.onnx" := by
    simp [findDetection, hla]
  have hstep := step_detect (⟨1280, 500, 1, 4⟩ : Config) idleState [0] _ _ rfl hfd
  refine ⟨⟨("hey_jarvis.onnx", [3/4]), by simp, 3/4, rfl, by norm_num⟩, ?_, ?_⟩
  · rw [hstep]
    rfl
  · rw [hstep]
    simp

/-- Witness for C3: the amended theorem applied at the concrete detection input. -/
theorem detection_transitions_witness :
    ∃ mdl scores s,
      (mdl, scores) ∈ ([("hey_jarvis.onnx", [3/4])] : PredBuffer) ∧
      scores.getLast? = some s ∧ (0.5 : ℚ) < s ∧
      step (⟨1280, 500, 1, 4⟩ : Config) idleState [0] [("hey_jarvis.onnx", [3/4])] =
        (armedState, [Event.wakewordDetected (extractModelName mdl)]) ∧
      Event.scorerReset ∉
        (step (⟨1280, 500, 1, 4⟩ : Config) idleState [0] [("hey_jarvis.onnx", [3/4])]).2 :=
  detection_transitions_without_reset (⟨1280, 500, 1, 4⟩ : Config) idleState [0]
    [("hey_jarvis.onnx", [3/4])] rfl
    ⟨("hey_jarvis.onnx", [3/4]), by simp, 3/4, rfl, by norm_num⟩

/-! ### Claim C4 -/

/-- Claim C4: over any input stream in which no model's most recent score ever
exceeds 0.5, the controller never leaves `IDLE`: after any number of iterations
the state is still the initial one, so `is_recording` stays `false` and the
recording buffer stays empty. -/
theorem idle_forever_without_detection
    (cfg : Config) (inputs : List (Chunk × PredBuffer))
    (h : ∀ p ∈ inputs, ∀ mdl scores, (mdl, scores) ∈ p.2 →
        ∀ s, scores.getLast? = some s → s ≤ (0.5 : ℚ)) :
    ∀ k, runState cfg idleState (inputs.take k) = idleState := by
  induction inputs with
  | nil => intro k; simp [runState_nil]
  | cons p ps ih =>
    intro k
    cases k with
    | zero => simp [runState_nil]
    | succ k =>
      rw [List.take_succ_cons, runState_cons]
      have hd : findDetection p.2 = none := by
        apply findDetection_eq_none
        intro q hq s hs
        exact h p (List.mem_cons_self _ _) q.1 q.2 (by simpa using hq) s hs
      rw [step_no_detect cfg idleState p.1 p.2 rfl hd]
      exact ih (fun q hq => h q (List.mem_cons_of_mem _ hq)) k

/-- Witness for C4: a concrete two-iteration stream with scores at most 0.5 ends
(and stays) in the idle state. -/
theorem idle_forever_witness :
    runState (⟨1280, 500, 1, 4⟩ : Config) idleState
      (([([600], [("m.onnx", [1/4])]), ([700], [("m.onnx", [1/4, 1/2])])] :
        List (Chunk × PredBuffer)).take 2) = idleState := by
  apply idle_forever_without_detection
  intro p hp mdl scores hms s hs
  simp only [List.mem_cons, List.not_mem_nil, or_false] at hp
  rcases hp with rfl | rfl
  · simp only [List.mem_singleton, Prod.mk.injEq] at hms
    obtain ⟨rfl, rfl⟩ := hms
    rw [show ([1/4] : List ℚ).getLast? = some (1/4) from rfl] at hs
    injection hs with h
    subst h
    norm_num
  · simp only [List.mem_singleton, Prod.mk.injEq] at hms
    obtain ⟨rfl, rfl⟩ := hms
    rw [show ([1/4, 1/2] : List ℚ).getLast? = some (1/2) from rfl] at hs
    injection hs with h
    subst h
    norm_num

/-! ### Claim C5 -/

/-- Claim C5: on every session end — both the no-speech-timeout abort and the
silence-after-speech finalize, i.e. every step that moves the controller from
recording to not recording — the loop reports the session with the buffer
contents at end time and the duration `len(recorded_frames) * chunk_size /
sample_rate` seconds, and invokes the scorer's reset capability. -/
theorem session_end_reports_and_resets
    (cfg : Config) (st : LoopState) (c : Chunk) (b : PredBuffer)
    (h1 : st.is_recording = true) (h2 : (step cfg st c b).1.is_recording = false) :
    (step cfg st c b).2 =
      [Event.sessionEnded (st.recorded_frames ++ [c])
         (((st.recorded_frames ++ [c]).length : ℚ) * (cfg.chunk_size : ℚ) / (RATE : ℚ)),
       Event.scorerReset] := by
  rw [step_session_end cfg st c b h1 h2]

/-- Witness for C5: a concrete timeout abort reports the two buffered chunks
(duration `2 * 1280 / 16000`) and resets the scorer. -/
theorem session_end_witness :
    ((step (⟨1280, 500, 1/10, 1/10⟩ : Config) ⟨true, [[5]], 0, false⟩ [0] []).1.is_recording
      = false) ∧
    (step (⟨1280, 500, 1/10, 1/10⟩ : Config) ⟨true, [[5]], 0, false⟩ [0] []).2 =
      [Event.sessionEnded [[5], [0]]
         ((([[5], [0]] : List Chunk).length : ℚ) * ((1280 : ℕ) : ℚ) / (RATE : ℚ)),
       Event.scorerReset] := by
  have h0 : rmsSq [0] = 0 := by simp [rmsSq]
  have h1 : rmsLt [0] 500 = true := by
    unfold rmsLt
    rw [decide_eq_true_eq, h0]
    norm_num
  have hNT : NO_SPEECH_TIMEOUT_CHUNKS (⟨1280, 500, 1/10, 1/10⟩ : Config) = 1 := by
    unfold NO_SPEECH_TIMEOUT_CHUNKS
    rw [pyInt_eq_floor _ (by norm_num [RATE])]
    rw [show (1/10 : ℚ) * (RATE : ℚ) / ((1280 : ℕ) : ℚ) = 5/4 from by norm_num [RATE]]
    rw [Int.floor_eq_iff] <;> norm_num
  have hstep := step_awaiting_timeout (⟨1280, 500, 1/10, 1/10⟩ : Config)
    ⟨true, [[5]], 0, false⟩ [0] [] rfl rfl h1 (by rw [hNT]; omega)
  have h2 : (step (⟨1280, 500, 1/10, 1/10⟩ : Config) ⟨true, [[5]], 0, false⟩ [0] []).1.is_recording
      = false := by rw [hstep]; rfl
  exact ⟨h2, session_end_reports_and_resets _ _ _ _ rfl h2⟩

/-! ### Claim C6 -/

/-- Claim C6: a chunk whose RMS is exactly the silence threshold is treated as
speech in both recording states: in the awaiting-speech state it starts speech
(the check is `rms >= threshold`), and in the in-speech state it resets the
silence counter instead of incrementing it (the silence check is strict `<`). -/
theorem threshold_equality_is_speech
    (cfg : Config) (c : Chunk) (b : PredBuffer)
    (h : rms c = (cfg.silence_threshold : ℝ)) :
    (∀ (fr : List Chunk) (m : ℕ),
        step cfg ⟨true, fr, m, false⟩ c b =
          (⟨true, fr ++ [c], 0, true⟩, [Event.speechStarted])) ∧
    (∀ (fr : List Chunk) (m : ℕ),
        step cfg ⟨true, fr, m, true⟩ c b = (⟨true, fr ++ [c], 0, true⟩, [])) := by
  have h3 : rmsLt c cfg.silence_threshold = false :=
    (rmsLt_false_iff _ _).mpr (le_of_eq h.symm)
  constructor
  · intro fr m
    rw [step_speech_start cfg _ c b rfl rfl h3]
  · intro fr m
    rw [step_inspeech_loud cfg _ c b rfl rfl h3]

/-- Witness for C6: the chunk `[500]` has RMS exactly 500; at threshold 500 it
starts speech from the awaiting state. -/
theorem threshold_equality_witness :
    rms [500] = (((⟨1280, 500, 1, 4⟩ : Config).silence_threshold : ℤ) : ℝ) ∧
    step (⟨1280, 500, 1, 4⟩ : Config) ⟨true, [], 7, false⟩ [500] [] =
      (⟨true, [] ++ [[500]], 0, true⟩, [Event.speechStarted]) ∧
    step (⟨1280, 500, 1, 4⟩ : Config) ⟨true, [], 7, true⟩ [500] [] =
      (⟨true, [] ++ [[500]], 0, true⟩, []) := by
  have h : rms [500] = (((⟨1280, 500, 1, 4⟩ : Config).silence_threshold : ℤ) : ℝ) := by
    rw [rms_const 500 [500] (by simp) (by decide)]
    show |((500 : ℤ) : ℝ)| = ((500 : ℤ) : ℝ)
    norm_num
  have hmain := threshold_equality_is_speech (⟨1280, 500, 1, 4⟩ : Config) [500] [] h
  exact ⟨h, hmain.1 [] 7, hmain.2 [] 7⟩

/-! ### Claim C7 -/

/-- Claim C7: the per-chunk energy is `rms = sqrt(mean(sample²))` over the chunk's
samples; for every nonempty chunk whose samples all equal `A` the computed RMS is
`|A|`, and for an all-zero chunk it is 0. -/
theorem rms_constant_chunk (A : ℤ) (c : Chunk) (hne : c ≠ []) (hA : ∀ x ∈ c, x = A) :
    rms c = |(A : ℝ)| ∧ (A = 0 → rms c = 0) := by
  refine ⟨rms_const A c hne hA, ?_⟩
  rintro rfl
  rw [rms_const 0 c hne hA]
  simp

/-- Witness for C7: the constant chunk `[7, 7]` has RMS `|7| = 7`, and `[0, 0, 0]`
has RMS 0. -/
theorem rms_constant_witness :
    rms [7, 7] = |((7 : ℤ) : ℝ)| ∧ rms [0, 0, 0] = 0 :=
  ⟨(rms_constant_chunk 7 [7, 7] (by simp) (by decide)).1,
   (rms_constant_chunk 0 [0, 0, 0] (by simp) (by decide)).2 rfl⟩

/-! ### Claim C8 -/

/-- Claim C8: a missing `chunk_size` is replaced at startup by the hardcoded
default 1280 with a warning, and a present one is used as-is without warning;
whereas the chunk-count threshold computation of main.py:129–131 has no fallback:
on a missing duration value it fails (modelled as `none`), while on a present
value it produces `int(T * RATE / CHUNK)`. -/
theorem chunk_size_fallback_missing_durations_fatal :
    resolveChunkSize none = (1280, true) ∧
    (∀ v : ℤ, resolveChunkSize (some v) = (v, false)) ∧
    (∀ C : ℕ, chunkCountThreshold none C = none) ∧
    (∀ (T : ℚ) (C : ℕ),
        chunkCountThreshold (some T) C = some (pyInt (T * (RATE : ℚ) / (C : ℚ)))) :=
  ⟨rfl, fun _ => rfl, fun _ => rfl, fun _ _ => rfl⟩

/-! ### Claim C10 -/

/-- Claim C10: the chunk on which the wakeword is detected is never in the
recording buffer: detection clears the buffer and the loop continues to the next
chunk, so when the session ends the exported buffer consists exactly of the
chunks read strictly after the detection chunk (the silent run before the end
plus the ending chunk). -/
theorem detection_chunk_not_buffered
    (cfg : Config) (c0 : Chunk) (b0 : PredBuffer) (mdl : String)
    (hdet : findDetection b0 = some mdl)
    (pairs : List (Chunk × PredBuffer)) (cEnd : Chunk) (bEnd : PredBuffer)
    (hrec : ∀ k ≤ pairs.length,
        (runState cfg (step cfg idleState c0 b0).1 (pairs.take k)).is_recording = true)
    (hend : (step cfg (runState cfg (step cfg idleState c0 b0).1 pairs) cEnd bEnd).1.is_recording
        = false) :
    (step cfg idleState c0 b0).1.recorded_frames = [] ∧
    (step cfg (runState cfg (step cfg idleState c0 b0).1 pairs) cEnd bEnd).2 =
      [Event.sessionEnded (pairs.map Prod.fst ++ [cEnd])
         (((pairs.map Prod.fst ++ [cEnd]).length : ℚ) * (cfg.chunk_size : ℚ) / (RATE : ℚ)),
       Event.scorerReset] := by
  have harm : (step cfg idleState c0 b0).1 = armedState := by
    rw [step_detect cfg idleState c0 b0 mdl rfl hdet]
  have hrec' : ∀ k ≤ pairs.length,
      (runState cfg armedState (pairs.take k)).is_recording = true := by
    intro k hk
    have := hrec k hk
    rwa [harm] at this
  have hfin : (runState cfg armedState pairs).is_recording = true := by
    have := hrec' pairs.length le_rfl
    rwa [List.take_length] at this
  have hframes : (runState cfg armedState pairs).recorded_frames = pairs.map Prod.fst := by
    have := recording_run_frames cfg pairs armedState rfl hrec'
    simpa [armedState] using this
  constructor
  · rw [harm]
    rfl
  · rw [harm] at hend ⊢
    rw [step_session_end cfg (runState cfg armedState pairs) cEnd bEnd hfin hend, hframes]

/-- Witness for C10: detection on one chunk, then an immediate one-chunk timeout;
the exported buffer holds only the post-detection chunk. -/
theorem detection_chunk_not_buffered_witness :
    (step (⟨1280, 500, 1/10, 1/10⟩ : Config) idleState [600]
        [("hey.onnx", [3/4])]).1.recorded_frames = [] ∧
    (step (⟨1280, 500, 1/10, 1/10⟩ : Config)
        (runState (⟨1280, 500, 1/10, 1/10⟩ : Config)
          (step (⟨1280, 500, 1/10, 1/10⟩ : Config) idleState [600]
            [("hey.onnx", [3/4])]).1 [])
        [0] []).2 =
      [Event.sessionEnded (([] : List (Chunk × PredBuffer)).map Prod.fst ++ [[0]])
         (((([] : List (Chunk × PredBuffer)).map Prod.fst ++ [[0]]).length : ℚ) *
            ((1280 : ℕ) : ℚ) / (RATE : ℚ)),
       Event.scorerReset] := by
  have hla : lastAbove [3/4] = true := by
    have h34 : (0.5 : ℚ) < 3/4 := by norm_num
    simp [lastAbove, h34]
  have hfd : findDetection ([("hey.onnx", [3/4])] : PredBuffer) = some "hey.onnx" := by
    simp [findDetection, hla]
  have harm := step_detect (⟨1280, 500, 1/10, 1/10⟩ : Config) idleState [600] _ _ rfl hfd
  have h0 : rmsSq [0] = 0 := by simp [rmsSq]
  have h1 : rmsLt [0] 500 = true := by
    unfold rmsLt
    rw [decide_eq_true_eq, h0]
    norm_num
  have hNT : NO_SPEECH_TIMEOUT_CHUNKS (⟨1280, 500, 1/10, 1/10⟩ : Config) = 1 := by
    unfold NO_SPEECH_TIMEOUT_CHUNKS
    rw [pyInt_eq_floor _ (by norm_num [RATE])]
    rw [show (1/10 : ℚ) * (RATE : ℚ) / ((1280 : ℕ) : ℚ) = 5/4 from by norm_num [RATE]]
    rw [Int.floor_eq_iff] <;> norm_num
  have hrec : ∀ k ≤ ([] : List (Chunk × PredBuffer)).length,
      (runState (⟨1280, 500, 1/10, 1/10⟩ : Config)
        (step (⟨1280, 500, 1/10, 1/10⟩ : Config) idleState [600]
          [("hey.onnx", [3/4])]).1 (([] : List (Chunk × PredBuffer)).take k)).is_recording
        = true := by
    intro k hk
    simp only [List.length_nil, Nat.le_zero] at hk
    subst hk
    rw [List.take_nil, runState_nil, harm]
    rfl
  have hend : (step (⟨1280, 500, 1/10, 1/10⟩ : Config)
      (runState (⟨1280, 500, 1/10, 1/10⟩ : Config)
        (step (⟨1280, 500, 1/10, 1/10⟩ : Config) idleState [600]
          [("hey.onnx", [3/4])]).1 [])
      [0] []).1.is_recording = false := by
    rw [runState_nil, harm]
    rw [step_awaiting_timeout (⟨1280, 500, 1/10, 1/10⟩ : Config) armedState [0] [] rfl rfl h1
      (by rw [hNT]; omega)]
    rfl
  exact detection_chunk_not_buffered (⟨1280, 500, 1/10, 1/10⟩ : Config) [600]
    [("hey.onnx", [3/4])] "hey.onnx" hfd [] [0] [] hrec hend

/-! ### Dictionary facts for the settings model -/

lemma lookupJ_nil (k : String) : lookupJ [] k = none := rfl

lemma lookupJ_cons (p : String × JVal) (o : JObj) (k : String) :
    lookupJ (p :: o) k = if (p.1 == k) = true then some p.2 else lookupJ o k := by
  unfold lookupJ
  cases h : (p.1 == k) <;> simp [List.find?_cons, h]

lemma hasKey_nil (k : String) : hasKey [] k = false := rfl

lemma hasKey_cons (p : String × JVal) (o : JObj) (k : String) :
    hasKey (p :: o) k = ((p.1 == k) || hasKey o k) := by
  simp [hasKey]

lemma hasKey_self (o : JObj) (p : String × JVal) (h : p ∈ o) : hasKey o p.1 = true := by
  unfold hasKey
  rw [List.any_eq_true]
  exact ⟨p, h, by simp⟩

lemma hasKey_of_mem_map_fst (o : JObj) (k : String) (h : k ∈ o.map Prod.fst) :
    hasKey o k = true := by
  unfold hasKey
  rw [List.any_eq_true]
  obtain ⟨p, hp, hpk⟩ := List.mem_map.mp h
  exact ⟨p, hp, by simp [hpk]⟩

lemma hasKey_congr {o o' : JObj} (h : o.map Prod.fst = o'.map Prod.fst) (k : String) :
    hasKey o k = hasKey o' k := by
  have h1 : ∀ m : JObj, hasKey m k = (m.map Prod.fst).any (fun a => a == k) := by
    intro m
    induction m with
    | nil => rfl
    | cons p ps ih => simp only [hasKey_cons, List.map_cons, List.any_cons, ih]
  rw [h1, h1, h]

lemma lookupJ_eq_none_iff (o : JObj) (k : String) :
    lookupJ o k = none ↔ hasKey o k = false := by
  induction o with
  | nil => simp [lookupJ_nil, hasKey_nil]
  | cons p ps ih =>
    rw [lookupJ_cons, hasKey_cons]
    cases h : (p.1 == k) <;> simp [h, ih]

lemma lookupJ_isSome_of_hasKey (o : JObj) (k : String) (h : hasKey o k = true) :
    ∃ v, lookupJ o k = some v := by
  cases hl : lookupJ o k with
  | some v => exact ⟨v, rfl⟩
  | none =>
    rw [lookupJ_eq_none_iff] at hl
    rw [hl] at h
    cases h

lemma hasKey_of_lookupJ_some (o : JObj) (k : String) (v : JVal) (h : lookupJ o k = some v) :
    hasKey o k = true := by
  cases hh : hasKey o k with
  | true => rfl
  | false =>
    rw [← lookupJ_eq_none_iff] at hh
    rw [hh] at h
    cases h

lemma setKey_map_fst (o : JObj) (k : String) (v : JVal) (h : hasKey o k = true) :
    (setKey o k v).map Prod.fst = o.map Prod.fst := by
  unfold setKey
  rw [if_pos h, List.map_map]
  apply List.map_congr_left
  intro p _
  show (if p.1 == k then (p.1, v) else p).1 = p.1
  split <;> rfl

lemma lookupJ_map_set_self (o : JObj) (k : String) (v : JVal) (h : hasKey o k = true) :
    lookupJ (o.map (fun p => if p.1 == k then (p.1, v) else p)) k = some v := by
  induction o with
  | nil => rw [hasKey_nil] at h; cases h
  | cons p ps ih =>
    rw [List.map_cons, lookupJ_cons]
    by_cases hp : (p.1 == k) = true
    · have hif : (if p.1 == k then (p.1, v) else p) = (p.1, v) := if_pos hp
      rw [hif, if_pos hp]
    · have hif : (if p.1 == k then (p.1, v) else p) = p := if_neg hp
      rw [hif, if_neg hp]
      have hps : hasKey ps k = true := by
        rw [hasKey_cons] at h
        simpa [hp] using h
      exact ih hps

lemma lookupJ_map_set_ne (o : JObj) (k k' : String) (v : JVal) (hne : k' ≠ k) :
    lookupJ (o.map (fun p => if p.1 == k then (p.1, v) else p)) k' = lookupJ o k' := by
  induction o with
  | nil => rfl
  | cons p ps ih =>
    rw [List.map_cons, lookupJ_cons, lookupJ_cons]
    by_cases hpk : (p.1 == k) = true
    · have hif : (if p.1 == k then (p.1, v) else p) = (p.1, v) := if_pos hpk
      have h1 : p.1 = k := eq_of_beq hpk
      have h2 : (p.1 == k') = false := by
        rw [h1]
        exact beq_eq_false_iff_ne.mpr (Ne.symm hne)
      have hc1 : ¬ (((p.1, v).1 == k') = true) := by
        show ¬ ((p.1 == k') = true)
        simp [h2]
      have hc2 : ¬ ((p.1 == k') = true) := by simp [h2]
      rw [hif, if_neg hc1, if_neg hc2, ih]
    · have hif : (if p.1 == k then (p.1, v) else p) = p := if_neg hpk
      rw [hif, ih]

lemma lookupJ_append_single_ne (o : JObj) (k k' : String) (v : JVal) (hne : k' ≠ k) :
    lookupJ (o ++ [(k, v)]) k' = lookupJ o k' := by
  induction o with
  | nil =>
    rw [List.nil_append, lookupJ_cons, lookupJ_nil]
    have h2 : (k == k') = false := beq_eq_false_iff_ne.mpr (Ne.symm hne)
    simp [h2]
  | cons p ps ih =>
    rw [List.cons_append, lookupJ_cons, lookupJ_cons]
    by_cases hp : (p.1 == k') = true <;> simp [hp, ih]

lemma lookupJ_append (o o' : JObj) (k : String) (h : lookupJ o k = none) :
    lookupJ (o ++ o') k = lookupJ o' k := by
  induction o with
  | nil => simp
  | cons p ps ih =>
    rw [List.cons_append, lookupJ_cons]
    rw [lookupJ_cons] at h
    by_cases hp : (p.1 == k) = true
    · rw [if_pos hp] at h
      cases h
    · rw [if_neg hp] at h
      rw [if_neg hp]
      exact ih h

lemma lookupJ_setKey_self (o : JObj) (k : String) (v : JVal) :
    lookupJ (setKey o k v) k = some v := by
  unfold setKey
  by_cases h : hasKey o k = true
  · rw [if_pos h]
    exact lookupJ_map_set_self o k v h
  · rw [if_neg h]
    have hfalse : hasKey o k = false := by
      cases hh : hasKey o k with
      | true => exact absurd hh h
      | false => rfl
    rw [lookupJ_append o _ k ((lookupJ_eq_none_iff o k).mpr hfalse)]
    rw [lookupJ_cons]
    simp

/-- In a dict with pairwise-distinct keys, looking up the key of a member entry
returns that entry's value. -/
lemma lookupJ_of_mem_nodup (o : JObj) (k : String) (v : JVal)
    (h : (k, v) ∈ o) (hnd : (o.map Prod.fst).Nodup) : lookupJ o k = some v := by
  induction o with
  | nil => cases h
  | cons p ps ih =>
    rw [List.map_cons, List.nodup_cons] at hnd
    rw [lookupJ_cons]
    rcases List.mem_cons.mp h with heq | hmem
    · rw [← heq]
      simp
    · have hkps : k ∈ ps.map Prod.fst := by
        have hf : Prod.fst (k, v) ∈ ps.map Prod.fst := List.mem_map_of_mem Prod.fst hmem
        simpa using hf
      have hne : (p.1 == k) = false := by
        apply beq_eq_false_iff_ne.mpr
        intro hc
        exact hnd.1 (hc ▸ hkps)
      rw [hne]
      simpa using ih hmem hnd.2

lemma lookupJ_setKey_of_ne (o : JObj) (k k' : String) (v : JVal) (hne : k' ≠ k) :
    lookupJ (setKey o k v) k' = lookupJ o k' := by
  unfold setKey
  by_cases h : hasKey o k = true
  · rw [if_pos h]
    exact lookupJ_map_set_ne o k k' v hne
  · rw [if_neg h]
    exact lookupJ_append_single_ne o k k' v hne

/-! ### The merge and normalization passes of load_settings -/

/-- The in-place merge loop never changes the key set of the category (it only
overwrites values of keys that are already present). -/
lemma mergeLoop_map_fst (lvals : JObj) :
    ∀ (items : List (String × JVal)) (cur : JObj),
      (∀ p ∈ items, hasKey cur p.1 = true) →
      (mergeLoop lvals items cur).map Prod.fst = cur.map Prod.fst := by
  intro items
  induction items with
  | nil => intro cur _; rfl
  | cons p ps ih =>
    intro cur hall
    rw [mergeLoop]
    cases hl : lookupJ lvals p.1 with
    | none => exact ih cur (fun q hq => hall q (List.mem_cons_of_mem _ hq))
    | some v =>
      have hk : hasKey cur p.1 = true := hall p (List.mem_cons_self _ _)
      have hmap := setKey_map_fst cur p.1 v hk
      have hall' : ∀ q ∈ ps, hasKey (setKey cur p.1 v) q.1 = true := by
        intro q hq
        rw [hasKey_congr hmap q.1]
        exact hall q (List.mem_cons_of_mem _ hq)
      rw [ih (setKey cur p.1 v) hall', hmap]

/-- What the merge loop looks up to for a single key: keys iterated over and
present in the loaded category take the loaded value, all others keep the
accumulator's value. -/
lemma mergeLoop_lookupJ (lvals : JObj) :
    ∀ (items : List (String × JVal)) (cur : JObj) (k : String),
      lookupJ (mergeLoop lvals items cur) k =
        if (hasKey items k && hasKey lvals k) = true
        then lookupJ lvals k else lookupJ cur k := by
  intro items
  induction items with
  | nil => intro cur k; simp [mergeLoop, hasKey_nil]
  | cons p ps ih =>
    intro cur k
    rw [mergeLoop]
    cases hl : lookupJ lvals p.1 with
    | none =>
      rw [ih cur k, hasKey_cons]
      by_cases hpk : (p.1 == k) = true
      · have hkey : p.1 = k := eq_of_beq hpk
        have hfalse : hasKey lvals k = false := by
          rw [← hkey]
          exact (lookupJ_eq_none_iff lvals p.1).mp hl
        simp [hpk, hfalse]
      · have hpk' : (p.1 == k) = false := by
          cases hb : (p.1 == k) with
          | true => exact absurd hb hpk
          | false => rfl
        rw [hpk']
        simp
    | some v =>
      rw [ih (setKey cur p.1 v) k, hasKey_cons]
      by_cases hpk : (p.1 == k) = true
      · have hkey : p.1 = k := eq_of_beq hpk
        have hkl : hasKey lvals k = true := by
          rw [← hkey]
          exact hasKey_of_lookupJ_some lvals p.1 v hl
        have hvl : lookupJ lvals k = some v := by
          rw [← hkey]
          exact hl
        by_cases hany : hasKey ps k = true
        · simp [hpk, hkl, hany]
        · have hany' : hasKey ps k = false := by
            cases hb : hasKey ps k with
            | true => exact absurd hb hany
            | false => rfl
          have hself : lookupJ (setKey cur p.1 v) k = some v := by
            rw [← hkey]
            exact lookupJ_setKey_self cur p.1 v
          simp [hpk, hkl, hany', hself, hvl]
      · have hpk' : (p.1 == k) = false := by
          cases hb : (p.1 == k) with
          | true => exact absurd hb hpk
          | false => rfl
        have hne : k ≠ p.1 := by
          intro he
          rw [he] at hpk'
          simp at hpk'
        rw [lookupJ_setKey_of_ne cur p.1 k v hne, hpk']
        simp

/-- The merged category has exactly the default keys, in default order. -/
lemma mergeCategoryVals_map_fst (dvals lvals : JObj) :
    (mergeCategoryVals dvals lvals).map Prod.fst = dvals.map Prod.fst :=
  mergeLoop_map_fst lvals dvals dvals (fun p hp => hasKey_self dvals p hp)

/-- The merged category takes the loaded value for default keys present in the
loaded category and the default value for the rest. -/
lemma mergeCategoryVals_lookupJ (dvals lvals : JObj) (k : String) :
    lookupJ (mergeCategoryVals dvals lvals) k =
      if (hasKey dvals k && hasKey lvals k) = true
      then lookupJ lvals k else lookupJ dvals k :=
  mergeLoop_lookupJ lvals dvals dvals k

lemma addMissingLoop_id :
    ∀ (items : List (String × JVal)) (cur : JObj),
      (∀ p ∈ items, hasKey cur p.1 = true) → addMissingLoop items cur = cur := by
  intro items
  induction items with
  | nil => intro cur _; rfl
  | cons p ps ih =>
    intro cur hall
    rw [addMissingLoop, if_pos (hall p (List.mem_cons_self _ _))]
    exact ih cur (fun q hq => hall q (List.mem_cons_of_mem _ hq))

/-- On a category that already has exactly the default keys, the
add-missing/remove-unknown pass of config.py:79–91 is the identity. -/
lemma ensureCategory_id (dvals cur : JObj) (h : cur.map Prod.fst = dvals.map Prod.fst) :
    ensureCategory dvals cur = cur := by
  unfold ensureCategory
  have hall : ∀ p ∈ dvals, hasKey cur p.1 = true := by
    intro p hp
    rw [hasKey_congr h p.1]
    exact hasKey_self dvals p hp
  rw [addMissingLoop_id dvals cur hall]
  apply List.filter_eq_self.mpr
  intro p hp
  apply hasKey_of_mem_map_fst
  rw [← h]
  exact List.mem_map_of_mem Prod.fst hp

/-- Reduction of the merge pass when the file has no `"wakeword_settings"` key:
the result is the defaults. -/
lemma mergedSettings_of_none (loaded : JObj)
    (hlw : lookupJ loaded "wakeword_settings" = none) :
    mergedSettings loaded = DEFAULT_SETTINGS := by
  unfold mergedSettings DEFAULT_SETTINGS
  simp only [mergeSettingsLoop]
  rw [hlw]

/-- Reduction of the merge pass when the file's `"wakeword_settings"` is an
object: the category is merged key by key. -/
lemma mergedSettings_of_obj (loaded lvals : JObj)
    (hlw : lookupJ loaded "wakeword_settings" = some (JVal.jobj lvals)) :
    mergedSettings loaded =
      [("wakeword_settings", JVal.jobj (mergeCategoryVals wakewordDefaults lvals))] := by
  unfold mergedSettings DEFAULT_SETTINGS
  simp only [mergeSettingsLoop]
  rw [hlw]
  rfl

/-- Reduction of the merge pass when the file's `"wakeword_settings"` is not an
object: the category keeps the defaults. -/
lemma mergedSettings_of_nonobj (loaded : JObj) (lv : JVal)
    (hlw : lookupJ loaded "wakeword_settings" = some lv)
    (hno : ∀ l, lv ≠ JVal.jobj l) :
    mergedSettings loaded = DEFAULT_SETTINGS := by
  unfold mergedSettings DEFAULT_SETTINGS
  simp only [mergeSettingsLoop]
  rw [hlw]
  cases lv with
  | jobj l => exact absurd rfl (hno l)
  | jstr s => rfl
  | jnum q => rfl
  | jbool b => rfl
  | jnull => rfl

/-- The normalization pass of config.py:79–93 is the identity on a settings dict
whose single category already has exactly the default keys. -/
lemma ensuredSettings_single (m : JObj)
    (hmf : m.map Prod.fst = wakewordDefaults.map Prod.fst) :
    ensuredSettings [("wakeword_settings", JVal.jobj m)] =
      [("wakeword_settings", JVal.jobj m)] := by
  have h1 : ensuredSettings [("wakeword_settings", JVal.jobj m)] =
      [("wakeword_settings", JVal.jobj (ensureCategory wakewordDefaults m))] := rfl
  rw [h1, ensureCategory_id wakewordDefaults m hmf]

/-! ### Claim C9 -/

/-- Claim C9: for every input file state — absent, unparsable, or parsed to any
JSON object — `load_settings` returns a dictionary whose `"wakeword_settings"`
mapping has exactly the keys of the default settings: keys missing from the file
(including when the file's `"wakeword_settings"` is absent or not an object) get
their default values, keys unknown to the defaults are removed (no key outside
the defaults can appear), and keys present in both take the file's value. -/
theorem load_settings_exactly_default_keys (fs : FileState) :
    ∃ m : JObj,
      lookupJ (load_settings fs) "wakeword_settings" = some (JVal.jobj m) ∧
      m.map Prod.fst = wakewordDefaults.map Prod.fst ∧
      (∀ k v, (k, v) ∈ wakewordDefaults →
        lookupJ m k = some ((fileWakewordValue fs k).getD v)) := by
  have hdef : ∀ k v, (k, v) ∈ wakewordDefaults → lookupJ wakewordDefaults k = some v := by
    intro k v hkv
    exact lookupJ_of_mem_nodup _ _ _ hkv (by decide)
  cases fs with
  | absent =>
    refine ⟨wakewordDefaults, rfl, rfl, ?_⟩
    intro k v hkv
    rw [hdef k v hkv]
    rfl
  | unparsable =>
    refine ⟨wakewordDefaults, rfl, rfl, ?_⟩
    intro k v hkv
    rw [hdef k v hkv]
    rfl
  | parsed loaded =>
    have hload : load_settings (FileState.parsed loaded) =
        ensuredSettings (mergedSettings loaded) := rfl
    cases hlw : lookupJ loaded "wakeword_settings" with
    | none =>
      have hres : load_settings (FileState.parsed loaded) = DEFAULT_SETTINGS := by
        rw [hload, mergedSettings_of_none loaded hlw]
        exact ensuredSettings_single wakewordDefaults rfl
      refine ⟨wakewordDefaults, by rw [hres]; rfl, rfl, ?_⟩
      intro k v hkv
      have hfv : fileWakewordValue (FileState.parsed loaded) k = none := by
        simp only [fileWakewordValue]
        rw [hlw]
      rw [hfv, hdef k v hkv]
      rfl
    | some lv =>
      cases lv with
      | jobj lvals =>
        have hmf : (mergeCategoryVals wakewordDefaults lvals).map Prod.fst =
            wakewordDefaults.map Prod.fst := mergeCategoryVals_map_fst wakewordDefaults lvals
        have hres : load_settings (FileState.parsed loaded) =
            [("wakeword_settings",
              JVal.jobj (mergeCategoryVals wakewordDefaults lvals))] := by
          rw [hload, mergedSettings_of_obj loaded lvals hlw]
          exact ensuredSettings_single _ hmf
        refine ⟨mergeCategoryVals wakewordDefaults lvals, by rw [hres]; rfl, hmf, ?_⟩
        intro k v hkv
        have hfv : fileWakewordValue (FileState.parsed loaded) k = lookupJ lvals k := by
          simp only [fileWakewordValue]
          rw [hlw]
        rw [hfv, mergeCategoryVals_lookupJ]
        have hanyW : hasKey wakewordDefaults k = true := hasKey_self _ (k, v) hkv
        cases hkl : hasKey lvals k with
        | true =>
          rw [hanyW]
          simp only [Bool.true_and, if_pos rfl]
          obtain ⟨w, hw⟩ := lookupJ_isSome_of_hasKey lvals k hkl
          rw [hw]
          rfl
        | false =>
          rw [hanyW]
          simp only [Bool.true_and]
          rw [if_neg (by simp)]
          have hnone : lookupJ lvals k = none := (lookupJ_eq_none_iff lvals k).mpr hkl
          rw [hnone, hdef k v hkv]
          rfl
      | jstr s =>
        have hres : load_settings (FileState.parsed loaded) = DEFAULT_SETTINGS := by
          rw [hload, mergedSettings_of_nonobj loaded _ hlw (by intro l h; cases h)]
          exact ensuredSettings_single wakewordDefaults rfl
        refine ⟨wakewordDefaults, by rw [hres]; rfl, rfl, ?_⟩
        intro k v hkv
        have hfv : fileWakewordValue (FileState.parsed loaded) k = none := by
          simp only [fileWakewordValue]
          rw [hlw]
        rw [hfv, hdef k v hkv]
        rfl
      | jnum q =>
        have hres : load_settings (FileState.parsed loaded) = DEFAULT_SETTINGS := by
          rw [hload, mergedSettings_of_nonobj loaded _ hlw (by intro l h; cases h)]
          exact ensuredSettings_single wakewordDefaults rfl
        refine ⟨wakewordDefaults, by rw [hres]; rfl, rfl, ?_⟩
        intro k v hkv
        have hfv : fileWakewordValue (FileState.parsed loaded) k = none := by
          simp only [fileWakewordValue]
          rw [hlw]
        rw [hfv, hdef k v hkv]
        rfl
      | jbool b =>
        have hres : load_settings (FileState.parsed loaded) = DEFAULT_SETTINGS := by
          rw [hload, mergedSettings_of_nonobj loaded _ hlw (by intro l h; cases h)]
          exact ensuredSettings_single wakewordDefaults rfl
        refine ⟨wakewordDefaults, by rw [hres]; rfl, rfl, ?_⟩
        intro k v hkv
        have hfv : fileWakewordValue (FileState.parsed loaded) k = none := by
          simp only [fileWakewordValue]
          rw [hlw]
        rw [hfv, hdef k v hkv]
        rfl
      | jnull =>
        have hres : load_settings (FileState.parsed loaded) = DEFAULT_SETTINGS := by
          rw [hload, mergedSettings_of_nonobj loaded _ hlw (by intro l h; cases h)]
          exact ensuredSettings_single wakewordDefaults rfl
        refine ⟨wakewordDefaults, by rw [hres]; rfl, rfl, ?_⟩
        intro k v hkv
        have hfv : fileWakewordValue (FileState.parsed loaded) k = none := by
          simp only [fileWakewordValue]
          rw [hlw]
        rw [hfv, hdef k v hkv]
        rfl

/-- Witness for C9: the theorem applied to a concrete parsed file that overrides
`chunk_size` and carries an unknown key. -/
theorem load_settings_witness :
    ∃ m : JObj,
      lookupJ (load_settings (FileState.parsed
          [("wakeword_settings",
            JVal.jobj [("chunk_size", JVal.jnum 42), ("bogus", JVal.jstr "x")])]))
        "wakeword_settings" = some (JVal.jobj m) ∧
      m.map Prod.fst = wakewordDefaults.map Prod.fst ∧
      (∀ k v, (k, v) ∈ wakewordDefaults →
        lookupJ m k = some ((fileWakewordValue (FileState.parsed
          [("wakeword_settings",
            JVal.jobj [("chunk_size", JVal.jnum 42), ("bogus", JVal.jstr "x")])]) k).getD v)) :=
  load_settings_exactly_default_keys (FileState.parsed
    [("wakeword_settings",
      JVal.jobj [("chunk_size", JVal.jnum 42), ("bogus", JVal.jstr "x")])])

end Nova
